import Mathlib

/-!
# mackerel-plugin-elasticsearch-cluster-stats

A shallow embedding of `lib/elasticsearch-cluster-stats.go` and a verification
of its path extractor (`getFloatValue`), metric catalog (`metricPlace`),
extraction loop (`FetchMetrics`) and graph table (`GraphDefinition`).

Modelling conventions
* A Go `float64` is represented by its IEEE-754 binary64 bit pattern.  The
  program never computes with these numbers, it only moves them around, so
  the representation is exact.
* A Go `map[string]T` is an association list read with `List.lookup`; the nil
  map and the empty map read alike (every index yields the zero value) and
  are both the empty list.
* A Go `interface{}` produced by `encoding/json` is the tree `JVal`; the nil
  interface is `JVal.null`.
* A Go `(T, error)` result is a pair whose second component is `none` for a
  nil error and `some msg` for `errors.New(msg)`.
* `range` over a Go map visits the entries in an unspecified order: the loop
  of `FetchMetrics` takes the visiting order as an argument, and theorems
  quantify over every permutation of the catalog.
* Library code the program calls is not part of the repository:
  `strings.Title` is modelled after its implementation with the Unicode tables
  as a parameter, the JSON decoder by what `encoding/json` documents for a
  destination of type `map[string]interface{}`, and the outcome of the HTTP
  request is an input.
-/

namespace ElasticsearchClusterStats

/-! ## Data model -/

/-- A Go `float64`, given by its IEEE-754 binary64 bit pattern. -/
structure Float64 where
  bits : Nat
  deriving DecidableEq, Repr

/-- The Go literal `0` of type `float64` (positive zero). -/
def Float64.zero : Float64 := ⟨0⟩

/-- The dynamic values `encoding/json` stores in an `interface{}`:
nil, `bool`, `float64`, `string`, `[]interface{}` and
`map[string]interface{}`. -/
inductive JVal where
  | null
  | bool (b : Bool)
  | num (f : Float64)
  | str (s : String)
  | arr (xs : List JVal)
  | obj (m : List (String × JVal))

/-- The Go type `map[string]interface{}`. -/
abbrev GoMap := List (String × JVal)

/-- The Go expression `sm[k]` on a `map[string]interface{}`: the stored value,
or the zero value (the nil interface) when the key is absent. -/
def GoMap.index (sm : GoMap) (k : String) : JVal :=
  (sm.lookup k).getD JVal.null

/-- The Go type `map[string]float64`. -/
abbrev MetricMap := List (String × Float64)

/-- The Go statement `metrics[k] = val`: overwrite the entry of `k` when there
is one, add it otherwise. -/
def MetricMap.set : MetricMap → String → Float64 → MetricMap
  | [], k, val => [(k, val)]
  | (k0, v0) :: rest, k, val =>
    if k0 = k then (k, val) :: rest else (k0, v0) :: MetricMap.set rest k val

/-! ## The metric catalog (source lines 17-33) -/

/-- The package-level table `metricPlace`, in source order. -/
def metricPlace : List (String × List String) :=
  [ ("docs_count",                  ["indices", "docs", "count"]),
    ("docs_deleted",                ["indices", "docs", "deleted"]),
    ("fielddata_size",              ["indices", "fielddata", "memory_size_in_bytes"]),
    ("query_cache_size",            ["indices", "query_cache", "memory_size_in_bytes"]),
    ("segments_size",               ["indices", "segments", "memory_in_bytes"]),
    ("segments_terms_size",         ["indices", "segments", "terms_memory_in_bytes"]),
    ("segments_stored_fields_size", ["indices", "segments", "stored_fields_memory_in_bytes"]),
    ("segments_norms_size",         ["indices", "segments", "norms_memory_in_bytes"]),
    ("segments_points_size",        ["indices", "segments", "points_memory_in_bytes"]),
    ("segments_doc_values_size",    ["indices", "segments", "doc_values_memory_in_bytes"]),
    ("segments_index_writer_size",  ["indices", "segments", "index_writer_memory_in_bytes"]),
    ("segments_version_map_size",   ["indices", "segments", "version_map_memory_in_bytes"]),
    ("segments_fixed_bit_set_size", ["indices", "segments", "fixed_bit_set_memory_in_bytes"]),
    ("evictions_fielddata",         ["indices", "fielddata", "evictions"]),
    ("evictions_query_cache",       ["indices", "query_cache", "evictions"]) ]

/-! ## The path extractor (source lines 35-57) -/

/-- The message of the error returned for a non-final segment. -/
def errNotHash : String := "Cannot handle as a hash"

/-- The message of the error returned for the final segment. -/
def errNotFloat : String := "Not float64"

/-- The body of `for i, k := range keys` in `getFloatValue`, from index `i`
on: `len` is `len(keys)`, the list is `keys[i:]`, and `sm`, `val` are the
loop-carried variables.  Falling off the end is `return val, nil`. -/
def getFloatValue.loop (len : Nat) :
    Nat → List String → GoMap → Float64 → Float64 × Option String
  | _, [], _, val => (val, none)
  | i, k :: rest, sm, val =>
    if i + 1 < len then
      match sm.index k with
      | JVal.obj m => getFloatValue.loop len (i + 1) rest m val
      | _ => (Float64.zero, some errNotHash)
    else
      match sm.index k with
      | JVal.num f => getFloatValue.loop len (i + 1) rest sm f
      | _ => (Float64.zero, some errNotFloat)

/-- The function `getFloatValue(s, keys)`: `val` starts as the zero value and
`sm` as `s`. -/
def getFloatValue (s : GoMap) (keys : List String) : Float64 × Option String :=
  getFloatValue.loop keys.length 0 keys s Float64.zero

/-! ## The plugin value (source lines 59-71) -/

/-- The struct `ElasticsearchPlugin`. -/
structure ElasticsearchPlugin where
  URI : String
  Prefix : String
  deriving DecidableEq, Repr

/-- The method `MetricKeyPrefix`, which has a pointer receiver: the result is
the returned string together with the receiver after the call. -/
def MetricKeyPrefix (p : ElasticsearchPlugin) : String × ElasticsearchPlugin :=
  if p.Prefix = "" then
    ("elasticsearchclusterstats", { p with Prefix := "elasticsearchclusterstats" })
  else
    (p.Prefix, p)

/-! ## The graph table (source lines 73-111) -/

/-- The fields of `mp.Metrics` that the program sets; a field left out of a
Go composite literal is the zero value `false`. -/
structure Metrics where
  Name : String
  Label : String
  Diff : Bool := false
  Stacked : Bool := false
  deriving DecidableEq, Repr

/-- The struct `mp.Graphs`. -/
structure Graphs where
  Label : String
  Unit : String
  Metrics : List Metrics
  deriving DecidableEq, Repr

/-- The method `GraphDefinition`.  `Title` stands for the library function
`strings.Title`; the returned Go map is listed in source order. -/
def GraphDefinition (Title : String → String) (p : ElasticsearchPlugin) :
    List (String × Graphs) :=
  let labelPrefix := Title p.Prefix
  [ ("indices.docs",
      { Label := labelPrefix ++ " Indices Docs",
        Unit := "integer",
        Metrics :=
          [ { Name := "docs_count", Label := "Count", Stacked := true },
            { Name := "docs_deleted", Label := "Deleted", Stacked := true } ] }),
    ("indices.memory_size",
      { Label := labelPrefix ++ " Indices Memory Size",
        Unit := "bytes",
        Metrics :=
          [ { Name := "fielddata_size", Label := "Fielddata", Stacked := true },
            { Name := "query_cache_size", Label := "Query Cache", Stacked := true },
            { Name := "segments_size", Label := "Lucene Segments", Stacked := true },
            { Name := "segments_terms_size", Label := "Lucene Segments Term", Stacked := true },
            { Name := "segments_stored_fields_size", Label := "Lucene Segments Stored Fields",
              Stacked := true },
            { Name := "segments_norms_size", Label := "Lucene Segments Norms", Stacked := true },
            { Name := "segments_points_size", Label := "Lucene Segments Points", Stacked := true },
            { Name := "segments_doc_values_size", Label := "Lucene Segments Doc Values",
              Stacked := true },
            { Name := "segments_index_writer_size", Label := "Lucene Segments Index Writer",
              Stacked := true },
            { Name := "segments_version_map_size", Label := "Lucene Segments Version Map",
              Stacked := true },
            { Name := "segments_fixed_bit_set_size", Label := "Lucene Segments Fixed Bit Set",
              Stacked := true } ] }),
    ("indices.evictions",
      { Label := labelPrefix ++ " Indices Evictions",
        Unit := "integer",
        Metrics :=
          [ { Name := "evictions_fielddata", Label := "Fielddata", Diff := true },
            { Name := "evictions_filter_cache", Label := "Query Cache", Diff := true } ] }) ]

/-! ## The extraction loop of `FetchMetrics` (source lines 127, 136-145) -/

/-- The variables the loop of `FetchMetrics` writes: the result map and the
lines handed to `logger.Errorf`. -/
structure FetchState where
  metrics : MetricMap
  log : List String
  deriving DecidableEq, Repr

/-- The line that `logger.Errorf` writes for the identifier `k` and the error
message `err`: the identifier stands between single quotes. -/
def failedToFind (k err : String) : String :=
  "Failed to find \x27" ++ k ++ "\x27: " ++ err

/-- The loop `for k, v := range metricPlace` over the entries in the order
`range` visits them: a failed path is logged and skipped (`continue`), a
resolved one is stored with `metrics[k] = val`. -/
def FetchMetrics.loop (s : GoMap) : List (String × List String) → FetchState → FetchState
  | [], st => st
  | (k, v) :: rest, st =>
    match getFloatValue s v with
    | (val, none) =>
      FetchMetrics.loop s rest { st with metrics := MetricMap.set st.metrics k val }
    | (_, some err) =>
      FetchMetrics.loop s rest { st with log := st.log ++ [failedToFind k err] }

/-- The part of `FetchMetrics` that follows a successful `Decode`:
`metrics := make(map[string]float64)`, the loop over the catalog visited in
`order`, and `return metrics, nil`. -/
def FetchMetrics.extract (order : List (String × List String)) (s : GoMap) :
    MetricMap × Option String :=
  ((FetchMetrics.loop s order { metrics := [], log := [] }).metrics, none)

/-! ## Reading a document along a path -/

/-- Follow `keys` from `sm` through nested objects: the object reached, or
`none` as soon as a key is absent or does not hold an object. -/
def descend : GoMap → List String → Option GoMap
  | sm, [] => some sm
  | sm, k :: rest =>
    match sm.lookup k with
    | some (JVal.obj m) => descend m rest
    | _ => none

/-- Whether a dynamic value is an object. -/
def JVal.isObj : JVal → Bool
  | JVal.obj _ => true
  | _ => false

/-- Whether a dynamic value is a number. -/
def JVal.isNum : JVal → Bool
  | JVal.num _ => true
  | _ => false

/-- The 64-bit float `42`. -/
def f42 : Float64 := ⟨0x4045000000000000⟩

/-- The 64-bit float `3`. -/
def f3 : Float64 := ⟨0x4008000000000000⟩

/-- The decoded document `{"indices":{"docs":{"count": 42, "deleted": 3}}}`. -/
def docsOnly : GoMap :=
  [("indices", JVal.obj [("docs", JVal.obj [("count", JVal.num f42), ("deleted", JVal.num f3)])])]

/-! ## The extractor without its loop counter -/

/-- The loop of `getFloatValue` read off the remaining keys alone: a key is
final exactly when no key follows it. -/
def getFloatValue.walk : GoMap → List String → Float64 → Float64 × Option String
  | _, [], val => (val, none)
  | sm, [k], _ =>
    match sm.index k with
    | JVal.num f => (f, none)
    | _ => (Float64.zero, some errNotFloat)
  | sm, k :: k2 :: rest, val =>
    match sm.index k with
    | JVal.obj m => getFloatValue.walk m (k2 :: rest) val
    | _ => (Float64.zero, some errNotHash)

/-- The number a path resolves to in a document: the keys before the last one
must lead through nested objects, and the last key must hold a number in the
object reached.  The empty path resolves to nothing. -/
def resolve (s : GoMap) (keys : List String) : Option Float64 :=
  match keys.getLast? with
  | none => none
  | some last =>
    match descend s keys.dropLast with
    | none => none
    | some m =>
      match m.lookup last with
      | some (JVal.num v) => some v
      | _ => none

/-- What one round of the loop of `FetchMetrics` adds to the result map for the
catalog entry `e`: the pair of its identifier and the extracted number, or
nothing when the extractor returns an error. -/
def FetchMetrics.entry (s : GoMap) (e : String × List String) : Option (String × Float64) :=
  match getFloatValue s e.2 with
  | (val, none) => some (e.1, val)
  | (_, some _) => none

/-- The document `docsOnly` with two further top-level fields, one of them
where a number is expected by no catalog path and one holding null. -/
def docsOnlyNoisy : GoMap :=
  ("status", JVal.str "red") :: ("nodes", JVal.null) :: docsOnly

/-- The metric names of a graph table, graph by graph. -/
def graphMetricNames (gs : List (String × Graphs)) : List String :=
  gs.flatMap (fun g => g.2.Metrics.map (fun m => m.Name))

/-! ## The library function `strings.Title`

`GraphDefinition` calls `strings.Title` of the Go standard library, which is
not part of the repository.  It is modelled after its implementation: exact
on ASCII, with the tables of the package `unicode` for the runes above ASCII
taken as a parameter.  Strings are sequences of valid runes. -/

/-- The tables of the Go package `unicode` that `strings.Title` consults for a
rune above ASCII: `unicode.IsLetter`, `unicode.IsDigit`, `unicode.IsSpace` and
the title-case mapping `unicode.To(unicode.TitleCase, r)`. -/
structure UnicodeTables where
  isLetter : Char → Bool
  isDigit : Char → Bool
  isSpace : Char → Bool
  toTitleCase : Char → Char

/-- Tables that know no letter, digit, space or case mapping above ASCII; they
serve where a concrete value is needed and the text is ASCII. -/
def UnicodeTables.asciiOnly : UnicodeTables :=
  { isLetter := fun _ => false, isDigit := fun _ => false, isSpace := fun _ => false,
    toTitleCase := fun r => r }

/-- The function `isSeparator` of the package `strings`: ASCII alphanumerics
and the underscore are no separators, every other ASCII rune is one; above
ASCII, letters and digits are no separators and spaces are. -/
def strings.isSeparator (u : UnicodeTables) (r : Char) : Bool :=
  if r.toNat ≤ 0x7F then
    if '0'.toNat ≤ r.toNat ∧ r.toNat ≤ '9'.toNat then false
    else if 'a'.toNat ≤ r.toNat ∧ r.toNat ≤ 'z'.toNat then false
    else if 'A'.toNat ≤ r.toNat ∧ r.toNat ≤ 'Z'.toNat then false
    else if r = '_' then false
    else true
  else if u.isLetter r || u.isDigit r then false
  else u.isSpace r

/-- The function `unicode.ToTitle`: an ASCII lower-case letter is moved to
upper case by `r -= 'a' - 'A'`, any other ASCII rune is unchanged, and a rune
above ASCII is looked up in the title-case table. -/
def unicode.ToTitle (u : UnicodeTables) (r : Char) : Char :=
  if r.toNat ≤ 0x7F then
    if 'a'.toNat ≤ r.toNat ∧ r.toNat ≤ 'z'.toNat then Char.ofNat (r.toNat - ('a'.toNat - 'A'.toNat))
    else r
  else u.toTitleCase r

/-- The closure that `strings.Title` hands to `strings.Map`, run over the runes
of the string: `prev` is the rune seen before; a rune that follows a separator
is mapped by `unicode.ToTitle`, any other rune is kept. -/
def strings.Title.go (u : UnicodeTables) : Char → List Char → List Char
  | _, [] => []
  | prev, r :: rest =>
    (if strings.isSeparator u prev then unicode.ToTitle u r else r) :: strings.Title.go u r rest

/-- The function `strings.Title`: `prev` starts as a blank. -/
def strings.Title (u : UnicodeTables) (s : String) : String :=
  String.mk (strings.Title.go u ' ' s.data)

/-! ## The whole of `FetchMetrics` (source lines 114-146)

The request, the transport and the JSON decoder are library code; what they
hand to `FetchMetrics` is an input of the model. -/

/-- What the decoder finds in the response body: text that is no JSON value
the decoder can build (a syntax error, a number outside `float64`), or the
value it builds for an `interface{}`. -/
inductive Body where
  | invalid (err : String)
  | value (v : JVal)

/-- What the libraries hand to one run of `FetchMetrics`: the error of
`http.NewRequest`, the error of `http.DefaultClient.Do`, and the response
body. -/
structure World where
  newRequestErr : Option String
  doErr : Option String
  body : Body

/-- The message of the `json.UnmarshalTypeError` for a JSON value of the given
kind met where a `map[string]interface{}` is expected. -/
def unmarshalTypeError (kind : String) : String :=
  "json: cannot unmarshal " ++ kind ++ " into Go value of type map[string]interface \x7b\x7d"

/-- The call `decoder.Decode(&s)` with `var s map[string]interface{}`, as
`encoding/json` documents it: an object fills the map; the JSON value `null`
sets the map to nil and is no error; an array, a string, a number or a boolean
leaves the map nil and returns an `UnmarshalTypeError`. -/
def decodeIntoMap : Body → GoMap × Option String
  | Body.invalid err => ([], some err)
  | Body.value (JVal.obj m) => (m, none)
  | Body.value JVal.null => ([], none)
  | Body.value (JVal.arr _) => ([], some (unmarshalTypeError "array"))
  | Body.value (JVal.str _) => ([], some (unmarshalTypeError "string"))
  | Body.value (JVal.num _) => ([], some (unmarshalTypeError "number"))
  | Body.value (JVal.bool _) => ([], some (unmarshalTypeError "bool"))

/-- The method `FetchMetrics`: each of the three early `return nil, err`
yields no map (`none`, the nil map) and the error; otherwise the extraction
step runs on the decoded document, with the catalog visited in `order`. -/
def FetchMetrics (order : List (String × List String)) (w : World) :
    Option MetricMap × Option String :=
  match w.newRequestErr with
  | some err => (none, some err)
  | none =>
    match w.doErr with
    | some err => (none, some err)
    | none =>
      match decodeIntoMap w.body with
      | (_, some err) => (none, some err)
      | (s, none) =>
        (some (FetchMetrics.extract order s).1, (FetchMetrics.extract order s).2)

/-- The names and paths of the table in section 4.2 of the specification, the
paths written with dots as they are there. -/
def specCatalog : List (String × String) :=
  [ ("docs_count", "indices.docs.count"),
    ("docs_deleted", "indices.docs.deleted"),
    ("fielddata_size", "indices.fielddata.memory_size_in_bytes"),
    ("query_cache_size", "indices.query_cache.memory_size_in_bytes"),
    ("segments_size", "indices.segments.memory_in_bytes"),
    ("segments_terms_size", "indices.segments.terms_memory_in_bytes"),
    ("segments_stored_fields_size", "indices.segments.stored_fields_memory_in_bytes"),
    ("segments_norms_size", "indices.segments.norms_memory_in_bytes"),
    ("segments_points_size", "indices.segments.points_memory_in_bytes"),
    ("segments_doc_values_size", "indices.segments.doc_values_memory_in_bytes"),
    ("segments_index_writer_size", "indices.segments.index_writer_memory_in_bytes"),
    ("segments_version_map_size", "indices.segments.version_map_memory_in_bytes"),
    ("segments_fixed_bit_set_size", "indices.segments.fixed_bit_set_memory_in_bytes"),
    ("evictions_fielddata", "indices.fielddata.evictions"),
    ("evictions_query_cache", "indices.query_cache.evictions") ]

/-- A path written with dots between its field names. -/
def dotted (path : List String) : String :=
  ".".intercalate path

/-- The key and the label of every graph of a graph table. -/
def graphLabels (gs : List (String × Graphs)) : List (String × String) :=
  gs.map (fun g => (g.1, g.2.Label))

/-- A decoded document in which `indices.docs.count` is the number 42 while
other catalog fields are malformed or missing: `indices.docs.deleted` is a
string, `indices.fielddata` is null, and `indices.query_cache` and
`indices.segments` are absent. -/
def docsBroken : GoMap :=
  [("indices", JVal.obj
      [ ("docs", JVal.obj [("count", JVal.num f42), ("deleted", JVal.str "many")]),
        ("fielddata", JVal.null) ])]

/-! # Verification -/

/-! ## The extractor -/

theorem getFloatValue.loop_eq_walk (len : Nat) (keys : List String) :
    ∀ (i : Nat) (sm : GoMap) (val : Float64), i + keys.length = len →
      getFloatValue.loop len i keys sm val = getFloatValue.walk sm keys val := by
  induction keys with
  | nil => intro i sm val _; rfl
  | cons k rest ih =>
    intro i sm val hlen
    cases rest with
    | nil =>
      have hlast : ¬ (i + 1 < len) := by simp at hlen; omega
      simp only [getFloatValue.loop, getFloatValue.walk, hlast, if_false]
    | cons k2 rest2 =>
      have hmid : i + 1 < len := by simp at hlen; omega
      have hnext : ∀ m, getFloatValue.loop len (i + 1) (k2 :: rest2) m val
          = getFloatValue.walk m (k2 :: rest2) val := fun m =>
        ih (i + 1) m val (by simp at hlen ⊢; omega)
      rw [getFloatValue.loop, getFloatValue.walk, if_pos hmid]
      cases sm.index k <;> simp only [hnext]

theorem getFloatValue_eq_walk (s : GoMap) (keys : List String) :
    getFloatValue s keys = getFloatValue.walk s keys Float64.zero :=
  getFloatValue.loop_eq_walk keys.length keys 0 s Float64.zero (by simp)

theorem GoMap.index_of_lookup_some {sm : GoMap} {k : String} {v : JVal}
    (h : sm.lookup k = some v) : sm.index k = v := by
  simp [GoMap.index, h]

theorem GoMap.index_of_lookup_none {sm : GoMap} {k : String}
    (h : sm.lookup k = none) : sm.index k = JVal.null := by
  simp [GoMap.index, h]

theorem descend_cons_eq_some {s m : GoMap} {k : String} {init : List String}
    (h : descend s (k :: init) = some m) :
    ∃ o, s.lookup k = some (JVal.obj o) ∧ descend o init = some m := by
  unfold descend at h
  split at h
  · next o hk => exact ⟨o, hk, h⟩
  · cases h

/-- Once the keys `init` have led from `s` to the object `m`, the extractor
continues on `m` with the keys that remain, provided some do. -/
theorem getFloatValue.walk_descend (init : List String) :
    ∀ (s m : GoMap) (k : String) (rest : List String) (val : Float64),
      descend s init = some m →
      getFloatValue.walk s (init ++ k :: rest) val = getFloatValue.walk m (k :: rest) val := by
  induction init with
  | nil =>
    intro s m k rest val h
    simp only [descend, Option.some.injEq] at h
    subst h; rfl
  | cons k0 init ih =>
    intro s m k rest val h
    obtain ⟨o, hk, ho⟩ := descend_cons_eq_some h
    have hstep : getFloatValue.walk s (k0 :: (init ++ k :: rest)) val
        = getFloatValue.walk o (init ++ k :: rest) val := by
      cases hi : init ++ k :: rest with
      | nil => simp at hi
      | cons a as =>
        rw [getFloatValue.walk, GoMap.index_of_lookup_some hk]
    rw [List.cons_append, hstep]
    exact ih o m k rest val ho

theorem getFloatValue.walk_last_num {m : GoMap} {k : String} {v : Float64} (val : Float64)
    (h : m.lookup k = some (JVal.num v)) : getFloatValue.walk m [k] val = (v, none) := by
  rw [getFloatValue.walk, GoMap.index_of_lookup_some h]

theorem getFloatValue.walk_last_not_num {m : GoMap} {k : String} (val : Float64)
    (h : (m.index k).isNum = false) :
    getFloatValue.walk m [k] val = (Float64.zero, some errNotFloat) := by
  rw [getFloatValue.walk]
  cases hv : m.index k <;> simp_all [JVal.isNum]

theorem getFloatValue.walk_mid_not_obj {m : GoMap} {k k2 : String} {rest : List String}
    (val : Float64) (h : (m.index k).isObj = false) :
    getFloatValue.walk m (k :: k2 :: rest) val = (Float64.zero, some errNotHash) := by
  rw [getFloatValue.walk]
  cases hv : m.index k <;> simp_all [JVal.isObj]

theorem GoMap.index_isObj_false {m : GoMap} {k : String}
    (h : m.lookup k = none ∨ ∃ v, m.lookup k = some v ∧ v.isObj = false) :
    (m.index k).isObj = false := by
  rcases h with h | ⟨v, h, hv⟩
  · rw [GoMap.index_of_lookup_none h]; rfl
  · rw [GoMap.index_of_lookup_some h]; exact hv

theorem GoMap.index_isNum_false {m : GoMap} {k : String}
    (h : m.lookup k = none ∨ ∃ v, m.lookup k = some v ∧ v.isNum = false) :
    (m.index k).isNum = false := by
  rcases h with h | ⟨v, h, hv⟩
  · rw [GoMap.index_of_lookup_none h]; rfl
  · rw [GoMap.index_of_lookup_some h]; exact hv

/-- C1: when the keys before the last one lead from the root `s` through
nested objects to an object `m`, and the last key maps to the number `v` in
`m`, then `getFloatValue` returns exactly `v` and a nil error. -/
theorem getFloatValue_numeric_leaf (s m : GoMap) (init : List String) (k : String)
    (v : Float64) (hpath : descend s init = some m)
    (hleaf : m.lookup k = some (JVal.num v)) :
    getFloatValue s (init ++ [k]) = (v, none) := by
  rw [getFloatValue_eq_walk, getFloatValue.walk_descend init s m k [] _ hpath]
  exact getFloatValue.walk_last_num _ hleaf

theorem getFloatValue_numeric_leaf_witness :
    descend docsOnly ["indices", "docs"] = some [("count", JVal.num f42), ("deleted", JVal.num f3)]
    ∧ getFloatValue docsOnly (["indices", "docs"] ++ ["deleted"]) = (f3, none) :=
  ⟨rfl, getFloatValue_numeric_leaf docsOnly
    [("count", JVal.num f42), ("deleted", JVal.num f3)] ["indices", "docs"] "deleted" f3 rfl rfl⟩

/-- C2: when the keys `pre` lead from the root to an object `m`, and the next
key `k`, which is not the last one (`k2` follows it), is absent from `m` or
holds a value that is not an object, then `getFloatValue` returns the number
`0` together with the error "Cannot handle as a hash", whatever the later
keys are. -/
theorem getFloatValue_intermediate_not_object (s m : GoMap) (pre : List String)
    (k k2 : String) (post : List String) (hpath : descend s pre = some m)
    (hbad : m.lookup k = none ∨ ∃ v, m.lookup k = some v ∧ v.isObj = false) :
    getFloatValue s (pre ++ k :: k2 :: post) = (Float64.zero, some "Cannot handle as a hash") := by
  rw [getFloatValue_eq_walk, getFloatValue.walk_descend pre s m k (k2 :: post) _ hpath]
  exact getFloatValue.walk_mid_not_obj _ (GoMap.index_isObj_false hbad)

theorem getFloatValue_intermediate_not_object_witness :
    descend docsOnly ["indices", "docs"] = some [("count", JVal.num f42), ("deleted", JVal.num f3)]
    ∧ getFloatValue docsOnly (["indices", "docs"] ++ "count" :: "x" :: ["y"])
      = (Float64.zero, some "Cannot handle as a hash") :=
  ⟨rfl, getFloatValue_intermediate_not_object docsOnly
    [("count", JVal.num f42), ("deleted", JVal.num f3)]
    ["indices", "docs"] "count" "x" ["y"] rfl (Or.inr ⟨JVal.num f42, rfl, rfl⟩)⟩

/-- C3: when the keys before the last one lead from the root through nested
objects to an object `m`, and the last key is absent from `m` or holds a value
that is not a number (null, a string, a boolean, an object or an array), then
`getFloatValue` returns the number `0` with the error "Not float64", which is
not the error "Cannot handle as a hash". -/
theorem getFloatValue_leaf_not_numeric (s m : GoMap) (init : List String) (k : String)
    (hpath : descend s init = some m)
    (hbad : m.lookup k = none ∨ ∃ v, m.lookup k = some v ∧ v.isNum = false) :
    getFloatValue s (init ++ [k]) = (Float64.zero, some "Not float64")
    ∧ (getFloatValue s (init ++ [k])).2 ≠ some "Cannot handle as a hash" := by
  have h : getFloatValue s (init ++ [k]) = (Float64.zero, some "Not float64") := by
    rw [getFloatValue_eq_walk, getFloatValue.walk_descend init s m k [] _ hpath]
    exact getFloatValue.walk_last_not_num _ (GoMap.index_isNum_false hbad)
  refine ⟨h, ?_⟩
  rw [h]
  decide

theorem getFloatValue_leaf_not_numeric_witness :
    descend docsOnly ["indices"]
      = some [("docs", JVal.obj [("count", JVal.num f42), ("deleted", JVal.num f3)])]
    ∧ getFloatValue docsOnly (["indices"] ++ ["docs"]) = (Float64.zero, some "Not float64")
    ∧ (getFloatValue docsOnly (["indices"] ++ ["docs"])).2 ≠ some "Cannot handle as a hash" :=
  ⟨rfl, getFloatValue_leaf_not_numeric docsOnly
    [("docs", JVal.obj [("count", JVal.num f42), ("deleted", JVal.num f3)])]
    ["indices"] "docs" rfl
    (Or.inr ⟨JVal.obj [("count", JVal.num f42), ("deleted", JVal.num f3)], rfl, rfl⟩)⟩

/-- The values that are not numbers are exactly null, the booleans, the
strings, the arrays and the objects. -/
theorem JVal.isNum_eq_false_iff (v : JVal) :
    v.isNum = false ↔
      v = JVal.null ∨ (∃ b, v = JVal.bool b) ∨ (∃ t, v = JVal.str t)
        ∨ (∃ xs, v = JVal.arr xs) ∨ (∃ o, v = JVal.obj o) := by
  cases v <;> simp [JVal.isNum]

/-- The values that are not objects are exactly null, the booleans, the
numbers, the strings and the arrays. -/
theorem JVal.isObj_eq_false_iff (v : JVal) :
    v.isObj = false ↔
      v = JVal.null ∨ (∃ b, v = JVal.bool b) ∨ (∃ f, v = JVal.num f)
        ∨ (∃ t, v = JVal.str t) ∨ (∃ xs, v = JVal.arr xs) := by
  cases v <;> simp [JVal.isObj]

/-! ## Association lists with distinct keys -/

theorem lookup_eq_some_iff_mem {β : Type} (l : List (String × β)) (k : String) (v : β)
    (hnd : (l.map Prod.fst).Nodup) : l.lookup k = some v ↔ (k, v) ∈ l := by
  induction l with
  | nil => simp
  | cons e rest ih =>
    obtain ⟨k0, v0⟩ := e
    simp only [List.map_cons, List.nodup_cons, List.mem_map, not_exists, not_and] at hnd
    obtain ⟨hk0, hrest⟩ := hnd
    by_cases hk : k = k0
    · subst hk
      have hnot : (k, v) ∉ rest := fun hmem => hk0 (k, v) hmem rfl
      simp [List.lookup_cons, hnot]
      exact eq_comm
    · have hbeq : (k == k0) = false := by simpa using hk
      simp [List.lookup_cons, hbeq, hk, ih hrest]

theorem lookup_eq_none_iff_not_key {β : Type} (l : List (String × β)) (k : String) :
    l.lookup k = none ↔ k ∉ l.map Prod.fst := by
  induction l with
  | nil => simp
  | cons e rest ih =>
    obtain ⟨k0, v0⟩ := e
    by_cases hk : k = k0
    · subst hk; simp [List.lookup_cons]
    · have hbeq : (k == k0) = false := by simpa using hk
      simp only [List.lookup_cons, hbeq, ih]
      simp [hk]

/-! ## The extraction loop -/

theorem MetricMap.set_of_not_mem (m : MetricMap) (k : String) (val : Float64)
    (h : k ∉ m.map Prod.fst) : MetricMap.set m k val = m ++ [(k, val)] := by
  induction m with
  | nil => rfl
  | cons e rest ih =>
    obtain ⟨k0, v0⟩ := e
    simp only [List.map_cons, List.mem_cons, not_or] at h
    have hne : ¬ k0 = k := fun heq => h.1 heq.symm
    simp [MetricMap.set, hne, ih h.2]

theorem FetchMetrics.entry_of_ok {s : GoMap} {k : String} {v : List String} {val : Float64}
    (h : getFloatValue s v = (val, none)) : FetchMetrics.entry s (k, v) = some (k, val) := by
  simp [FetchMetrics.entry, h]

theorem FetchMetrics.entry_of_err {s : GoMap} {k : String} {v : List String} {val : Float64}
    {err : String} (h : getFloatValue s v = (val, some err)) :
    FetchMetrics.entry s (k, v) = none := by
  simp [FetchMetrics.entry, h]

theorem FetchMetrics.entry_eq_some_iff (s : GoMap) (e : String × List String) (k : String)
    (val : Float64) :
    FetchMetrics.entry s e = some (k, val) ↔ e.1 = k ∧ getFloatValue s e.2 = (val, none) := by
  unfold FetchMetrics.entry
  rcases hg : getFloatValue s e.2 with ⟨w, _ | err⟩ <;> simp

/-- Visiting entries with pairwise distinct identifiers, none of which is in
the map yet, the loop appends one pair per entry whose path resolves. -/
theorem FetchMetrics.loop_metrics (s : GoMap) (order : List (String × List String)) :
    ∀ st : FetchState, (order.map Prod.fst).Nodup →
      (∀ k ∈ order.map Prod.fst, k ∉ st.metrics.map Prod.fst) →
      (FetchMetrics.loop s order st).metrics
        = st.metrics ++ order.filterMap (FetchMetrics.entry s) := by
  induction order with
  | nil => intro st _ _; simp [FetchMetrics.loop]
  | cons e rest ih =>
    intro st hnd hfresh
    obtain ⟨k, v⟩ := e
    simp only [List.map_cons, List.nodup_cons] at hnd
    obtain ⟨hk, hrest⟩ := hnd
    have hkfresh : k ∉ st.metrics.map Prod.fst := hfresh k (by simp)
    rcases hg : getFloatValue s v with ⟨val, _ | err⟩
    · have hloop : FetchMetrics.loop s ((k, v) :: rest) st
          = FetchMetrics.loop s rest { st with metrics := MetricMap.set st.metrics k val } := by
        simp [FetchMetrics.loop, hg]
      rw [hloop, ih _ hrest, List.filterMap_cons, FetchMetrics.entry_of_ok hg]
      · simp [MetricMap.set_of_not_mem _ _ _ hkfresh]
      · intro k2 hk2
        simp only [MetricMap.set_of_not_mem _ _ _ hkfresh, List.map_append, List.map_cons,
          List.map_nil, List.mem_append, List.mem_singleton, not_or]
        exact ⟨hfresh k2 (by simp [List.mem_map] at hk2 ⊢; exact Or.inr hk2),
          fun heq => hk (heq ▸ hk2)⟩
    · have hloop : FetchMetrics.loop s ((k, v) :: rest) st
          = FetchMetrics.loop s rest { st with log := st.log ++ [failedToFind k err] } := by
        simp [FetchMetrics.loop, hg]
      rw [hloop, ih _ hrest, List.filterMap_cons, FetchMetrics.entry_of_err hg]
      intro k2 hk2
      exact hfresh k2 (by simp [List.mem_map] at hk2 ⊢; exact Or.inr hk2)

theorem metricPlace_keys_nodup : (metricPlace.map Prod.fst).Nodup := by decide

theorem order_keys_nodup {order : List (String × List String)} (h : order.Perm metricPlace) :
    (order.map Prod.fst).Nodup :=
  (List.Perm.nodup_iff (h.map Prod.fst)).mpr metricPlace_keys_nodup

/-- Over any visiting order of the catalog the extraction step returns, with a
nil error, one pair per catalog entry whose path resolves, in visiting order. -/
theorem FetchMetrics.extract_eq (order : List (String × List String)) (s : GoMap)
    (h : order.Perm metricPlace) :
    FetchMetrics.extract order s = (order.filterMap (FetchMetrics.entry s), none) := by
  unfold FetchMetrics.extract
  rw [FetchMetrics.loop_metrics s order _ (order_keys_nodup h) (by simp)]
  simp

theorem FetchMetrics.extract_keys_nodup (order : List (String × List String)) (s : GoMap)
    (h : order.Perm metricPlace) :
    ((FetchMetrics.extract order s).1.map Prod.fst).Nodup := by
  rw [FetchMetrics.extract_eq order s h]
  have hsub : ((order.filterMap (FetchMetrics.entry s)).map Prod.fst).Sublist
      (order.map Prod.fst) := by
    clear h
    induction order with
    | nil => simp
    | cons e rest ih =>
      rw [List.filterMap_cons]
      cases he : FetchMetrics.entry s e with
      | none => simpa using ih.trans (List.sublist_cons_self _ _)
      | some kv =>
        obtain ⟨k, val⟩ := kv
        have hk := ((FetchMetrics.entry_eq_some_iff s e k val).mp he).1
        simpa [hk] using ih
  exact hsub.nodup (order_keys_nodup h)

/-- The entry of `k` in the result of the extraction step, over any visiting
order of the catalog. -/
theorem FetchMetrics.extract_lookup (order : List (String × List String)) (s : GoMap)
    (h : order.Perm metricPlace) (k : String) (val : Float64) :
    (FetchMetrics.extract order s).1.lookup k = some val ↔
      ∃ path, metricPlace.lookup k = some path ∧ getFloatValue s path = (val, none) := by
  rw [lookup_eq_some_iff_mem _ _ _ (FetchMetrics.extract_keys_nodup order s h),
    FetchMetrics.extract_eq order s h]
  simp only [List.mem_filterMap, FetchMetrics.entry_eq_some_iff]
  constructor
  · rintro ⟨⟨k0, path⟩, hmem, hk, hg⟩
    simp only at hk hg
    subst hk
    exact ⟨path, (lookup_eq_some_iff_mem _ _ _ metricPlace_keys_nodup).mpr (h.mem_iff.mp hmem), hg⟩
  · rintro ⟨path, hl, hg⟩
    exact ⟨(k, path),
      h.mem_iff.mpr ((lookup_eq_some_iff_mem _ _ _ metricPlace_keys_nodup).mp hl), rfl, hg⟩

/-! ## Success of the extractor is resolution of the path -/

theorem GoMap.index_eq_num_iff (sm : GoMap) (k : String) (v : Float64) :
    sm.index k = JVal.num v ↔ sm.lookup k = some (JVal.num v) := by
  unfold GoMap.index
  cases sm.lookup k <;> simp

theorem GoMap.index_eq_obj_iff (sm : GoMap) (k : String) (m : GoMap) :
    sm.index k = JVal.obj m ↔ sm.lookup k = some (JVal.obj m) := by
  unfold GoMap.index
  cases sm.lookup k <;> simp

theorem resolve_single (s : GoMap) (k : String) (v : Float64) :
    resolve s [k] = some v ↔ s.lookup k = some (JVal.num v) := by
  simp only [resolve, List.getLast?_singleton, List.dropLast_single, descend]
  split <;> simp_all

theorem resolve_cons_cons (s : GoMap) (k k2 : String) (rest : List String) (v : Float64) :
    resolve s (k :: k2 :: rest) = some v ↔
      ∃ m, s.lookup k = some (JVal.obj m) ∧ resolve m (k2 :: rest) = some v := by
  have hlast : (k :: k2 :: rest).getLast? = (k2 :: rest).getLast? := by
    simp [List.getLast?_cons_cons]
  have hdrop : (k :: k2 :: rest).dropLast = k :: (k2 :: rest).dropLast := by
    simp [List.dropLast]
  unfold resolve
  rw [hlast, hdrop]
  cases hl : (k2 :: rest).getLast? with
  | none => simp
  | some last =>
    simp only [descend]
    cases hk : s.lookup k with
    | none => simp
    | some w =>
      cases w <;> simp

theorem getFloatValue.walk_single_ok_iff (s : GoMap) (k : String) (val v : Float64) :
    getFloatValue.walk s [k] val = (v, none) ↔ s.lookup k = some (JVal.num v) := by
  rw [← GoMap.index_eq_num_iff, getFloatValue.walk]
  cases s.index k <;> simp

theorem getFloatValue.walk_cons_cons_ok_iff (s : GoMap) (k k2 : String) (rest : List String)
    (val v : Float64) :
    getFloatValue.walk s (k :: k2 :: rest) val = (v, none) ↔
      ∃ m, s.lookup k = some (JVal.obj m) ∧ getFloatValue.walk m (k2 :: rest) val = (v, none) := by
  simp only [← GoMap.index_eq_obj_iff]
  rw [getFloatValue.walk]
  cases s.index k <;> simp

theorem getFloatValue.walk_ok_iff_resolve (keys : List String) (hne : keys ≠ []) :
    ∀ (s : GoMap) (val v : Float64),
      getFloatValue.walk s keys val = (v, none) ↔ resolve s keys = some v := by
  induction keys with
  | nil => exact absurd rfl hne
  | cons k rest ih =>
    intro s val v
    cases rest with
    | nil => rw [getFloatValue.walk_single_ok_iff, resolve_single]
    | cons k2 rest2 =>
      rw [getFloatValue.walk_cons_cons_ok_iff, resolve_cons_cons]
      simp only [ih (List.cons_ne_nil _ _)]

/-- On a non-empty path the extractor succeeds with `v` exactly when the path
resolves to the number `v` in the document. -/
theorem getFloatValue_ok_iff_resolve (s : GoMap) (keys : List String) (hne : keys ≠ [])
    (v : Float64) : getFloatValue s keys = (v, none) ↔ resolve s keys = some v := by
  rw [getFloatValue_eq_walk]
  exact getFloatValue.walk_ok_iff_resolve keys hne s Float64.zero v

/-- A non-empty path resolves to `v` exactly when its keys before the last
one lead through nested objects to an object that holds the number `v` at the
last key. -/
theorem resolve_append_single (s : GoMap) (init : List String) (k : String) (v : Float64) :
    resolve s (init ++ [k]) = some v ↔
      ∃ m, descend s init = some m ∧ m.lookup k = some (JVal.num v) := by
  simp only [resolve, List.getLast?_append, List.getLast?_singleton, Option.or_some,
    List.dropLast_concat]
  cases hd : descend s init with
  | none => simp
  | some m =>
    simp only [Option.some.injEq, exists_eq_left']
    split <;> simp_all

theorem metricPlace_paths_ne_nil : ∀ e ∈ metricPlace, e.2 ≠ [] := by decide

theorem FetchMetrics.extract_mem_keys_iff (order : List (String × List String)) (s : GoMap)
    (h : order.Perm metricPlace) (k : String) :
    k ∈ (FetchMetrics.extract order s).1.map Prod.fst ↔
      ∃ path val, metricPlace.lookup k = some path ∧ getFloatValue s path = (val, none) := by
  constructor
  · intro hk
    cases hl : (FetchMetrics.extract order s).1.lookup k with
    | none => exact absurd hk ((lookup_eq_none_iff_not_key _ _).mp hl)
    | some val =>
      obtain ⟨path, hp, hg⟩ := (FetchMetrics.extract_lookup order s h k val).mp hl
      exact ⟨path, val, hp, hg⟩
  · rintro ⟨path, val, hp, hg⟩
    have hl := (FetchMetrics.extract_lookup order s h k val).mpr ⟨path, hp, hg⟩
    by_contra hk
    rw [(lookup_eq_none_iff_not_key _ _).mpr hk] at hl
    cases hl

/-- The visiting order does not change what the result map holds at any key. -/
theorem FetchMetrics.extract_lookup_order (order : List (String × List String)) (s : GoMap)
    (h : order.Perm metricPlace) (k : String) :
    (FetchMetrics.extract order s).1.lookup k
      = (FetchMetrics.extract metricPlace s).1.lookup k := by
  apply Option.ext
  intro val
  simp only [Option.mem_def]
  rw [FetchMetrics.extract_lookup order s h, FetchMetrics.extract_lookup metricPlace s
    (List.Perm.refl _)]

theorem getFloatValue_congr_top (s1 s2 : GoMap) (k0 : String) (rest : List String)
    (hsame : s1.lookup k0 = s2.lookup k0) :
    getFloatValue s1 (k0 :: rest) = getFloatValue s2 (k0 :: rest) := by
  have hidx : s1.index k0 = s2.index k0 := by simp [GoMap.index, hsame]
  rw [getFloatValue_eq_walk, getFloatValue_eq_walk]
  cases rest with
  | nil => rw [getFloatValue.walk, getFloatValue.walk, hidx]
  | cons k2 rest2 => rw [getFloatValue.walk, getFloatValue.walk, hidx]

/-! ## The claims on the extraction step -/

/-- C4: over any visiting order of the catalog, the map built by the loop of
`FetchMetrics` holds `val` at `k` exactly when `k` is a catalog identifier
whose path `getFloatValue` resolves to `val` with a nil error; its keys are
catalog identifiers, each at most once, and an identifier whose path fails
has no entry. -/
theorem FetchMetrics_mapping_exact (order : List (String × List String)) (s : GoMap)
    (h : order.Perm metricPlace) :
    (∀ k val, (FetchMetrics.extract order s).1.lookup k = some val ↔
        ∃ path, metricPlace.lookup k = some path ∧ getFloatValue s path = (val, none))
    ∧ (∀ k, k ∈ (FetchMetrics.extract order s).1.map Prod.fst ↔
        ∃ path val, metricPlace.lookup k = some path ∧ getFloatValue s path = (val, none))
    ∧ (∀ k ∈ (FetchMetrics.extract order s).1.map Prod.fst, k ∈ metricPlace.map Prod.fst)
    ∧ (∀ k path v0 err, metricPlace.lookup k = some path →
        getFloatValue s path = (v0, some err) →
        (FetchMetrics.extract order s).1.lookup k = none)
    ∧ ((FetchMetrics.extract order s).1.map Prod.fst).Nodup := by
  refine ⟨FetchMetrics.extract_lookup order s h, FetchMetrics.extract_mem_keys_iff order s h,
    ?_, ?_, FetchMetrics.extract_keys_nodup order s h⟩
  · intro k hk
    obtain ⟨path, _, hp, _⟩ := (FetchMetrics.extract_mem_keys_iff order s h k).mp hk
    by_contra hnot
    rw [(lookup_eq_none_iff_not_key _ _).mpr hnot] at hp
    cases hp
  · intro k path v0 err hp hg
    cases hl : (FetchMetrics.extract order s).1.lookup k with
    | none => rfl
    | some val =>
      obtain ⟨path2, hp2, hg2⟩ := (FetchMetrics.extract_lookup order s h k val).mp hl
      rw [hp] at hp2
      cases hp2
      rw [hg] at hg2
      cases hg2

theorem FetchMetrics_mapping_exact_witness :
    metricPlace.Perm metricPlace
    ∧ ((FetchMetrics.extract metricPlace docsOnly).1.lookup "docs_count" = some f42 ↔
        ∃ path, metricPlace.lookup "docs_count" = some path
          ∧ getFloatValue docsOnly path = (f42, none))
    ∧ ((FetchMetrics.extract metricPlace docsOnly).1.map Prod.fst).Nodup :=
  ⟨List.Perm.refl _,
    (FetchMetrics_mapping_exact metricPlace docsOnly (List.Perm.refl _)).1 "docs_count" f42,
    (FetchMetrics_mapping_exact metricPlace docsOnly (List.Perm.refl _)).2.2.2.2⟩

/-- C5: when no catalog path resolves to a number in the document, the
extraction step of `FetchMetrics` returns the empty map and a nil error, over
any visiting order of the catalog. -/
theorem FetchMetrics_nothing_resolves (order : List (String × List String)) (s : GoMap)
    (h : order.Perm metricPlace) (hnone : ∀ e ∈ metricPlace, resolve s e.2 = none) :
    FetchMetrics.extract order s = ([], none) := by
  rw [FetchMetrics.extract_eq order s h]
  have hnil : order.filterMap (FetchMetrics.entry s) = [] := by
    rw [List.filterMap_eq_nil_iff]
    intro e he
    have hmem : e ∈ metricPlace := h.mem_iff.mp he
    cases hentry : FetchMetrics.entry s e with
    | none => rfl
    | some kv =>
      obtain ⟨k, val⟩ := kv
      have hg := ((FetchMetrics.entry_eq_some_iff s e k val).mp hentry).2
      have hres := (getFloatValue_ok_iff_resolve s e.2 (metricPlace_paths_ne_nil e hmem) val).mp hg
      rw [hnone e hmem] at hres
      cases hres
  rw [hnil]

theorem FetchMetrics_nothing_resolves_witness :
    metricPlace.Perm metricPlace
    ∧ (∀ e ∈ metricPlace, resolve [] e.2 = none)
    ∧ FetchMetrics.extract metricPlace [] = ([], none) :=
  ⟨List.Perm.refl _, by decide,
    FetchMetrics_nothing_resolves metricPlace [] (List.Perm.refl _) (by decide)⟩

/-- The entry of a catalog identifier in the result of the extraction step is
what its own path resolves to in the document, in any visiting order: no
other catalog entry and no other field of the document takes part. -/
theorem FetchMetrics.extract_lookup_resolve (order : List (String × List String)) (s : GoMap)
    (h : order.Perm metricPlace) (k : String) (path : List String)
    (hk : metricPlace.lookup k = some path) :
    (FetchMetrics.extract order s).1.lookup k = resolve s path := by
  have hmem : (k, path) ∈ metricPlace :=
    (lookup_eq_some_iff_mem _ _ _ metricPlace_keys_nodup).mp hk
  have hne : path ≠ [] := metricPlace_paths_ne_nil (k, path) hmem
  apply Option.ext
  intro val
  simp only [Option.mem_def]
  rw [FetchMetrics.extract_lookup order s h, ← getFloatValue_ok_iff_resolve s path hne val]
  constructor
  · rintro ⟨path2, hp, hg⟩
    rw [hk] at hp
    cases hp
    exact hg
  · intro hg
    exact ⟨path, hk, hg⟩

theorem resolve_congr_top (s1 s2 : GoMap) (k0 : String) (rest : List String)
    (hsame : s1.lookup k0 = s2.lookup k0) :
    resolve s1 (k0 :: rest) = resolve s2 (k0 :: rest) := by
  apply Option.ext
  intro val
  simp only [Option.mem_def]
  rw [← getFloatValue_ok_iff_resolve s1 _ (List.cons_ne_nil _ _) val,
    ← getFloatValue_ok_iff_resolve s2 _ (List.cons_ne_nil _ _) val,
    getFloatValue_congr_top s1 s2 k0 rest hsame]

/-- C6: for a catalog identifier `k` whose path starts with the key `k0`, two
documents that hold the same thing at `k0` (the same value, or nothing in
both) get the same outcome for `k` from the extraction step of `FetchMetrics`
(the same number, or no entry in both), each run visiting the catalog in an
order of its own, and the step returns a nil error on both.  The outcome for
`k` is what the path of `k` itself resolves to, so a third document that
agrees with the first on that path alone, however its other fields are
missing or malformed and in whatever order the catalog is visited, gets the
same outcome for `k` and a nil error as well. -/
theorem FetchMetrics_entry_depends_on_top_key (order1 order2 : List (String × List String))
    (s1 s2 : GoMap) (k k0 : String) (rest : List String)
    (h1 : order1.Perm metricPlace) (h2 : order2.Perm metricPlace)
    (hk : metricPlace.lookup k = some (k0 :: rest)) (hsame : s1.lookup k0 = s2.lookup k0) :
    (FetchMetrics.extract order1 s1).1.lookup k = (FetchMetrics.extract order2 s2).1.lookup k
    ∧ (FetchMetrics.extract order1 s1).1.lookup k = resolve s1 (k0 :: rest)
    ∧ (FetchMetrics.extract order2 s2).1.lookup k = resolve s2 (k0 :: rest)
    ∧ (FetchMetrics.extract order1 s1).2 = none
    ∧ (FetchMetrics.extract order2 s2).2 = none
    ∧ (∀ (order3 : List (String × List String)) (s3 : GoMap), order3.Perm metricPlace →
        resolve s3 (k0 :: rest) = resolve s1 (k0 :: rest) →
        (FetchMetrics.extract order3 s3).1.lookup k = (FetchMetrics.extract order1 s1).1.lookup k
        ∧ (FetchMetrics.extract order3 s3).2 = none) := by
  have e1 := FetchMetrics.extract_lookup_resolve order1 s1 h1 k (k0 :: rest) hk
  have e2 := FetchMetrics.extract_lookup_resolve order2 s2 h2 k (k0 :: rest) hk
  refine ⟨?_, e1, e2, rfl, rfl, ?_⟩
  · rw [e1, e2]
    exact resolve_congr_top s1 s2 k0 rest hsame
  · intro order3 s3 h3 hres
    refine ⟨?_, rfl⟩
    rw [FetchMetrics.extract_lookup_resolve order3 s3 h3 k (k0 :: rest) hk, e1]
    exact hres

theorem FetchMetrics_entry_depends_on_top_key_witness :
    metricPlace.reverse.Perm metricPlace
    ∧ metricPlace.Perm metricPlace
    ∧ metricPlace.lookup "docs_count" = some ("indices" :: ["docs", "count"])
    ∧ docsOnly.lookup "indices" = docsOnlyNoisy.lookup "indices"
    ∧ (FetchMetrics.extract metricPlace.reverse docsOnly).1.lookup "docs_count"
        = (FetchMetrics.extract metricPlace docsOnlyNoisy).1.lookup "docs_count"
    ∧ (FetchMetrics.extract metricPlace.reverse docsOnly).1.lookup "docs_count" = some f42
    ∧ resolve docsBroken ("indices" :: ["docs", "count"])
        = resolve docsOnly ("indices" :: ["docs", "count"])
    ∧ (FetchMetrics.extract metricPlace.reverse docsBroken).1.lookup "docs_count"
        = (FetchMetrics.extract metricPlace.reverse docsOnly).1.lookup "docs_count"
    ∧ (FetchMetrics.extract metricPlace.reverse docsBroken).2 = none :=
  ⟨List.reverse_perm _, List.Perm.refl _, rfl, rfl,
    (FetchMetrics_entry_depends_on_top_key metricPlace.reverse metricPlace docsOnly
      docsOnlyNoisy "docs_count" "indices" ["docs", "count"] (List.reverse_perm _)
      (List.Perm.refl _) rfl rfl).1,
    ((FetchMetrics_entry_depends_on_top_key metricPlace.reverse metricPlace docsOnly
      docsOnlyNoisy "docs_count" "indices" ["docs", "count"] (List.reverse_perm _)
      (List.Perm.refl _) rfl rfl).2.1).trans rfl,
    rfl,
    ((FetchMetrics_entry_depends_on_top_key metricPlace.reverse metricPlace docsOnly
      docsOnlyNoisy "docs_count" "indices" ["docs", "count"] (List.reverse_perm _)
      (List.Perm.refl _) rfl rfl).2.2.2.2.2 metricPlace.reverse docsBroken
        (List.reverse_perm _) rfl).1,
    ((FetchMetrics_entry_depends_on_top_key metricPlace.reverse metricPlace docsOnly
      docsOnlyNoisy "docs_count" "indices" ["docs", "count"] (List.reverse_perm _)
      (List.Perm.refl _) rfl rfl).2.2.2.2.2 metricPlace.reverse docsBroken
        (List.reverse_perm _) rfl).2⟩

theorem FetchMetrics.extract_docsOnly :
    FetchMetrics.extract metricPlace docsOnly
      = ([("docs_count", f42), ("docs_deleted", f3)], none) := by
  decide

/-- C7: for the document with only `indices.docs.count = 42` and
`indices.docs.deleted = 3`, the extraction step of `FetchMetrics`, over any
visiting order of the catalog, returns a map with exactly the two entries
`docs_count = 42` and `docs_deleted = 3` and a nil error; every other key, and
so each of the other 13 catalog identifiers, has no entry. -/
theorem FetchMetrics_docs_example (order : List (String × List String))
    (h : order.Perm metricPlace) :
    (FetchMetrics.extract order docsOnly).1.Perm [("docs_count", f42), ("docs_deleted", f3)]
    ∧ (FetchMetrics.extract order docsOnly).1.length = 2
    ∧ (FetchMetrics.extract order docsOnly).1.lookup "docs_count" = some f42
    ∧ (FetchMetrics.extract order docsOnly).1.lookup "docs_deleted" = some f3
    ∧ (∀ k, k ≠ "docs_count" → k ≠ "docs_deleted" →
        (FetchMetrics.extract order docsOnly).1.lookup k = none)
    ∧ ((metricPlace.map Prod.fst).filter
        (fun k => ((FetchMetrics.extract order docsOnly).1.lookup k).isNone)).length = 13
    ∧ (FetchMetrics.extract order docsOnly).2 = none := by
  have hperm : (FetchMetrics.extract order docsOnly).1.Perm
      [("docs_count", f42), ("docs_deleted", f3)] := by
    rw [FetchMetrics.extract_eq order docsOnly h]
    have hcanon := FetchMetrics.extract_eq metricPlace docsOnly (List.Perm.refl _)
    rw [FetchMetrics.extract_docsOnly] at hcanon
    have hlist : metricPlace.filterMap (FetchMetrics.entry docsOnly)
        = [("docs_count", f42), ("docs_deleted", f3)] := (congrArg Prod.fst hcanon).symm
    rw [← hlist]
    exact h.filterMap _
  have hlook : ∀ k, (FetchMetrics.extract order docsOnly).1.lookup k
      = List.lookup k [("docs_count", f42), ("docs_deleted", f3)] := by
    intro k
    rw [FetchMetrics.extract_lookup_order order docsOnly h, FetchMetrics.extract_docsOnly]
  refine ⟨hperm, ?_, ?_, ?_, ?_, ?_, rfl⟩
  · simpa using hperm.length_eq
  · rw [hlook]; rfl
  · rw [hlook]; rfl
  · intro k h1 h2
    have b1 : (k == "docs_count") = false := by simpa using h1
    have b2 : (k == "docs_deleted") = false := by simpa using h2
    rw [hlook]
    simp only [List.lookup_cons, b1, b2, List.lookup_nil]
  · simp only [hlook]
    decide

theorem FetchMetrics_docs_example_witness :
    metricPlace.Perm metricPlace
    ∧ (FetchMetrics.extract metricPlace docsOnly).1.Perm
        [("docs_count", f42), ("docs_deleted", f3)]
    ∧ (FetchMetrics.extract metricPlace docsOnly).1.length = 2 :=
  ⟨List.Perm.refl _, (FetchMetrics_docs_example metricPlace (List.Perm.refl _)).1,
    (FetchMetrics_docs_example metricPlace (List.Perm.refl _)).2.1⟩

/-! ## The graph table -/

/-- C8: the graph `indices.evictions` returned by `GraphDefinition` names the
metric `evictions_filter_cache`, for every prefix, and the catalog
`metricPlace` has no such key (its key is `evictions_query_cache`). -/
theorem GraphDefinition_names_outside_catalog (Title : String → String)
    (p : ElasticsearchPlugin) :
    "evictions_filter_cache" ∈ graphMetricNames (GraphDefinition Title p)
    ∧ metricPlace.lookup "evictions_filter_cache" = none
    ∧ "evictions_filter_cache" ∉ metricPlace.map Prod.fst
    ∧ metricPlace.lookup "evictions_query_cache"
        = some ["indices", "query_cache", "evictions"] := by
  refine ⟨?_, by decide, by decide, by decide⟩
  simp [graphMetricNames, GraphDefinition]

/-- C9: for every prefix `GraphDefinition` returns exactly three graphs, keyed
`indices.docs`, `indices.memory_size` and `indices.evictions`, with units
`integer`, `bytes` and `integer`; every metric of the first two has
`Stacked = true` and `Diff = false`, and every metric of the third has
`Diff = true` and `Stacked = false`. -/
theorem GraphDefinition_units_and_modes (Title : String → String) (p : ElasticsearchPlugin) :
    (GraphDefinition Title p).map Prod.fst
      = ["indices.docs", "indices.memory_size", "indices.evictions"]
    ∧ (∃ g, (GraphDefinition Title p).lookup "indices.docs" = some g ∧ g.Unit = "integer"
        ∧ ∀ m ∈ g.Metrics, m.Stacked = true ∧ m.Diff = false)
    ∧ (∃ g, (GraphDefinition Title p).lookup "indices.memory_size" = some g ∧ g.Unit = "bytes"
        ∧ ∀ m ∈ g.Metrics, m.Stacked = true ∧ m.Diff = false)
    ∧ (∃ g, (GraphDefinition Title p).lookup "indices.evictions" = some g
        ∧ g.Unit = "integer" ∧ ∀ m ∈ g.Metrics, m.Diff = true ∧ m.Stacked = false) := by
  refine ⟨rfl, ⟨_, rfl, rfl, ?_⟩, ⟨_, rfl, rfl, ?_⟩, ⟨_, rfl, rfl, ?_⟩⟩ <;> simp

/-- C10: for every two plugin values, whatever their prefixes, `GraphDefinition`
returns the same graph names in the same places, and for each graph the same
unit and the same ordered list of metrics (name, label, `Stacked`, `Diff`);
the graphs can differ in their `Label` only. -/
theorem GraphDefinition_prefix_independent (Title : String → String)
    (p1 p2 : ElasticsearchPlugin) :
    (GraphDefinition Title p1).map (fun e => (e.1, e.2.Unit, e.2.Metrics))
      = (GraphDefinition Title p2).map (fun e => (e.1, e.2.Unit, e.2.Metrics)) :=
  rfl

/-! ## Labels and the default prefix -/

theorem strings.Title_custom (u : UnicodeTables) : strings.Title u "custom" = "Custom" := rfl

theorem strings.Title_empty (u : UnicodeTables) : strings.Title u "" = "" := rfl

theorem strings.Title_default (u : UnicodeTables) :
    strings.Title u "elasticsearchclusterstats" = "Elasticsearchclusterstats" := rfl

/-- Title-casing works word by word: a letter that follows a blank or a hyphen
is moved to upper case, one that follows a letter, a digit or an underscore is
kept. -/
theorem strings.Title_words (u : UnicodeTables) :
    strings.Title u "es cluster-stats_x 9a" = "Es Cluster-Stats_x 9a" := rfl

/-- C11: the label of each graph returned by `GraphDefinition` is the
title-cased prefix followed by the fixed suffix of the graph, " Indices Docs",
" Indices Memory Size" or " Indices Evictions"; with `strings.Title` as the
title-casing function and the prefix "custom" the three labels are
"Custom Indices Docs", "Custom Indices Memory Size" and
"Custom Indices Evictions". -/
theorem GraphDefinition_labels_title_cased (Title : String → String) (u : UnicodeTables)
    (p : ElasticsearchPlugin) :
    graphLabels (GraphDefinition Title p)
      = [ ("indices.docs", Title p.Prefix ++ " Indices Docs"),
          ("indices.memory_size", Title p.Prefix ++ " Indices Memory Size"),
          ("indices.evictions", Title p.Prefix ++ " Indices Evictions") ]
    ∧ strings.Title u "custom" = "Custom"
    ∧ graphLabels (GraphDefinition (strings.Title u) { p with Prefix := "custom" })
      = [ ("indices.docs", "Custom Indices Docs"),
          ("indices.memory_size", "Custom Indices Memory Size"),
          ("indices.evictions", "Custom Indices Evictions") ] :=
  ⟨rfl, rfl, rfl⟩

/-- C12: on the plugin value that the program builds from its own flag
defaults, with an empty `Prefix`, `GraphDefinition` does not use the default
prefix: it title-cases the empty string, so its labels start with a blank,
while on the prefix "elasticsearchclusterstats" they start with
"Elasticsearchclusterstats"; the two results differ whatever the tables above
ASCII are.  The sibling `MetricKeyPrefix` does replace the empty `Prefix`. -/
theorem GraphDefinition_empty_prefix_not_defaulted :
    graphLabels (GraphDefinition (strings.Title UnicodeTables.asciiOnly)
        { URI := "http://localhost:9200", Prefix := "" })
      = [ ("indices.docs", " Indices Docs"),
          ("indices.memory_size", " Indices Memory Size"),
          ("indices.evictions", " Indices Evictions") ]
    ∧ graphLabels (GraphDefinition (strings.Title UnicodeTables.asciiOnly)
        { URI := "http://localhost:9200", Prefix := "elasticsearchclusterstats" })
      = [ ("indices.docs", "Elasticsearchclusterstats Indices Docs"),
          ("indices.memory_size", "Elasticsearchclusterstats Indices Memory Size"),
          ("indices.evictions", "Elasticsearchclusterstats Indices Evictions") ]
    ∧ (MetricKeyPrefix { URI := "http://localhost:9200", Prefix := "" }).1
      = "elasticsearchclusterstats"
    ∧ ¬ ∃ u : UnicodeTables,
        GraphDefinition (strings.Title u) { URI := "http://localhost:9200", Prefix := "" }
          = GraphDefinition (strings.Title u)
              { URI := "http://localhost:9200", Prefix := "elasticsearchclusterstats" } := by
  refine ⟨rfl, rfl, rfl, ?_⟩
  rintro ⟨u, h⟩
  have hl := congrArg graphLabels h
  have h1 : graphLabels (GraphDefinition (strings.Title u)
        { URI := "http://localhost:9200", Prefix := "" })
      = [ ("indices.docs", " Indices Docs"),
          ("indices.memory_size", " Indices Memory Size"),
          ("indices.evictions", " Indices Evictions") ] := rfl
  have h2 : graphLabels (GraphDefinition (strings.Title u)
        { URI := "http://localhost:9200", Prefix := "elasticsearchclusterstats" })
      = [ ("indices.docs", "Elasticsearchclusterstats Indices Docs"),
          ("indices.memory_size", "Elasticsearchclusterstats Indices Memory Size"),
          ("indices.evictions", "Elasticsearchclusterstats Indices Evictions") ] := rfl
  rw [h1, h2] at hl
  exact absurd hl (by decide)

/-! ## The catalog -/

/-- C13: the catalog `metricPlace` has exactly 15 entries with pairwise
distinct identifiers; written with dots, its identifiers and paths are those
of the table of the specification, entry by entry, and no field name of a path
contains a dot; `docs_count` is at `indices`, `docs`, `count` and
`evictions_query_cache` at `indices`, `query_cache`, `evictions`. -/
theorem metricPlace_is_spec_table :
    metricPlace.map (fun e => (e.1, dotted e.2)) = specCatalog
    ∧ metricPlace.length = 15
    ∧ (metricPlace.map Prod.fst).Nodup
    ∧ (metricPlace.all (fun e => e.2.all (fun seg => !seg.data.contains '.'))) = true
    ∧ metricPlace.lookup "docs_count" = some ["indices", "docs", "count"]
    ∧ metricPlace.lookup "evictions_query_cache"
        = some ["indices", "query_cache", "evictions"] := by
  decide

/-- C14: `MetricKeyPrefix` returns "elasticsearchclusterstats" when `Prefix` is
empty and `Prefix` otherwise; after the call the field `Prefix` holds the
returned string, which is not empty, and `URI` is unchanged; a second call
returns the same string and leaves the plugin value as it is. -/
theorem MetricKeyPrefix_default_and_stable (p : ElasticsearchPlugin) :
    (MetricKeyPrefix p).1 = (if p.Prefix = "" then "elasticsearchclusterstats" else p.Prefix)
    ∧ (MetricKeyPrefix p).2.Prefix = (MetricKeyPrefix p).1
    ∧ (MetricKeyPrefix p).1 ≠ ""
    ∧ (MetricKeyPrefix p).2.URI = p.URI
    ∧ MetricKeyPrefix (MetricKeyPrefix p).2 = ((MetricKeyPrefix p).1, (MetricKeyPrefix p).2) := by
  by_cases h : p.Prefix = ""
  · simp [MetricKeyPrefix, h]
  · simp [MetricKeyPrefix, h]

/-- C15: among the metric names of the graphs of `GraphDefinition`,
`evictions_filter_cache` is the only one that is no key of `metricPlace`;
among the keys of `metricPlace`, `evictions_query_cache` is the only one that
no graph names; each of the other 14 keys is named exactly once across the
three graphs. -/
theorem GraphDefinition_catalog_mismatch (Title : String → String) (p : ElasticsearchPlugin) :
    (graphMetricNames (GraphDefinition Title p)).filter
        (fun n => !(metricPlace.map Prod.fst).contains n) = ["evictions_filter_cache"]
    ∧ (metricPlace.map Prod.fst).filter
        (fun k => !(graphMetricNames (GraphDefinition Title p)).contains k)
      = ["evictions_query_cache"]
    ∧ ((metricPlace.map Prod.fst).filter (fun k => k != "evictions_query_cache")).length = 14
    ∧ ((metricPlace.map Prod.fst).filter (fun k => k != "evictions_query_cache")).all
        (fun k => (graphMetricNames (GraphDefinition Title p)).count k == 1) = true := by
  have hnames : graphMetricNames (GraphDefinition Title p)
      = [ "docs_count", "docs_deleted", "fielddata_size", "query_cache_size", "segments_size",
          "segments_terms_size", "segments_stored_fields_size", "segments_norms_size",
          "segments_points_size", "segments_doc_values_size", "segments_index_writer_size",
          "segments_version_map_size", "segments_fixed_bit_set_size", "evictions_fielddata",
          "evictions_filter_cache" ] := rfl
  rw [hnames]
  decide

/-- C16: every path stored in `metricPlace` is a non-empty sequence of field
names, so whatever order the loop of `FetchMetrics` visits the catalog in,
every key sequence it hands to `getFloatValue` is non-empty, and a nil error
from that call means the path resolved to the returned number. -/
theorem metricPlace_paths_nonempty (order : List (String × List String))
    (h : order.Perm metricPlace) :
    (∀ e ∈ metricPlace, e.2 ≠ [])
    ∧ (∀ e ∈ order, e.2 ≠ [] ∧ 0 < e.2.length)
    ∧ (∀ e ∈ order, ∀ (s : GoMap) (v : Float64),
        getFloatValue s e.2 = (v, none) → resolve s e.2 = some v) := by
  have hne : ∀ e ∈ order, e.2 ≠ [] := fun e he =>
    metricPlace_paths_ne_nil e (h.mem_iff.mp he)
  refine ⟨metricPlace_paths_ne_nil, ?_, ?_⟩
  · intro e he
    exact ⟨hne e he, List.length_pos.mpr (hne e he)⟩
  · intro e he s v hg
    exact (getFloatValue_ok_iff_resolve s e.2 (hne e he) v).mp hg

theorem metricPlace_paths_nonempty_witness :
    metricPlace.Perm metricPlace
    ∧ (∀ e ∈ metricPlace, e.2 ≠ [])
    ∧ (∀ e ∈ metricPlace, e.2 ≠ [] ∧ 0 < e.2.length) :=
  ⟨List.Perm.refl _, (metricPlace_paths_nonempty metricPlace (List.Perm.refl _)).1,
    (metricPlace_paths_nonempty metricPlace (List.Perm.refl _)).2.1⟩

/-! ## The whole of `FetchMetrics` -/

theorem FetchMetrics.entry_nil_doc : ∀ e ∈ metricPlace, FetchMetrics.entry [] e = none := by
  decide

/-- On the nil map no catalog path resolves: the extraction step returns the
empty map and a nil error, in any visiting order. -/
theorem FetchMetrics.extract_nil_doc (order : List (String × List String))
    (h : order.Perm metricPlace) : FetchMetrics.extract order [] = ([], none) := by
  rw [FetchMetrics.extract_eq order [] h]
  have hnil : order.filterMap (FetchMetrics.entry []) = [] := by
    rw [List.filterMap_eq_nil_iff]
    intro e he
    exact FetchMetrics.entry_nil_doc e (h.mem_iff.mp he)
  rw [hnil]

/-- C17, as stated, fails: when the request and the transport succeed and the
body is the JSON value `null`, `Decode` returns no error and leaves the map
nil, and `FetchMetrics` returns the empty map and a nil error. -/
theorem FetchMetrics_null_body_no_error :
    FetchMetrics metricPlace
        { newRequestErr := none, doErr := none, body := Body.value JVal.null }
      = (some [], none) := by
  decide

/-- C17, amended: when the request and the transport succeed and the body is
valid JSON whose top-level value is an array, a string, a number or a boolean,
`FetchMetrics` returns no map and an error; when the top-level value is
`null`, it returns the empty map and a nil error, in any visiting order of
the catalog. -/
theorem FetchMetrics_top_level_not_object (order : List (String × List String))
    (h : order.Perm metricPlace) (v : JVal) (hv : v.isObj = false) :
    (v = JVal.null →
      FetchMetrics order { newRequestErr := none, doErr := none, body := Body.value v }
        = (some [], none))
    ∧ (v ≠ JVal.null →
      (FetchMetrics order { newRequestErr := none, doErr := none, body := Body.value v }).1
          = none
      ∧ (FetchMetrics order { newRequestErr := none, doErr := none, body := Body.value v }).2
          ≠ none) := by
  cases v with
  | null =>
    refine ⟨fun _ => ?_, fun hne => absurd rfl hne⟩
    simp [FetchMetrics, decodeIntoMap, FetchMetrics.extract_nil_doc order h]
  | bool b => exact ⟨fun hnull => (by cases hnull), fun _ => (by simp [FetchMetrics, decodeIntoMap])⟩
  | num f => exact ⟨fun hnull => (by cases hnull), fun _ => (by simp [FetchMetrics, decodeIntoMap])⟩
  | str t => exact ⟨fun hnull => (by cases hnull), fun _ => (by simp [FetchMetrics, decodeIntoMap])⟩
  | arr xs => exact ⟨fun hnull => (by cases hnull), fun _ => (by simp [FetchMetrics, decodeIntoMap])⟩
  | obj m => simp [JVal.isObj] at hv

theorem FetchMetrics_top_level_not_object_witness :
    metricPlace.Perm metricPlace
    ∧ (JVal.arr [JVal.num f42]).isObj = false
    ∧ (FetchMetrics metricPlace
        { newRequestErr := none, doErr := none, body := Body.value (JVal.arr [JVal.num f42]) }).1
          = none
    ∧ (FetchMetrics metricPlace
        { newRequestErr := none, doErr := none, body := Body.value (JVal.arr [JVal.num f42]) }).2
          ≠ none :=
  ⟨List.Perm.refl _, rfl,
    (FetchMetrics_top_level_not_object metricPlace (List.Perm.refl _)
      (JVal.arr [JVal.num f42]) rfl).2 (fun hnull => by cases hnull)⟩

/-- C18: on the empty key sequence `getFloatValue` returns the number `0` and a
nil error for every document, the nil map included, although the empty path
resolves to no number of the document. -/
theorem getFloatValue_empty_path (s : GoMap) :
    getFloatValue s [] = (Float64.zero, none)
    ∧ resolve s [] = none
    ∧ getFloatValue ([] : GoMap) [] = (Float64.zero, none) :=
  ⟨rfl, rfl, rfl⟩

end ElasticsearchClusterStats
